import Mathlib

/-!
Shallow embedding of `src/clean_bookmarks.py` (link-validation engine).

The Python module has two relevant functions:

* `check_link_validity(url)` — the retry controller: an allowlist
  short-circuit, then up to `max_retries = 5` HTTP probes with a special
  one-shot re-probe on SSL errors and a 1-second sleep between ordinary
  transport-error retries.
* `clean_bookmarks(html_file, output_file)` — the validation engine: it
  filters out links containing `"2025"`, dispatches the rest to a thread
  pool, and folds the completed `(url, status_code, is_valid)` triples into
  `valid_links` / `invalid_links`, printing one progress line per
  completion.

Network I/O is abstracted by a prober behaviour `Nat → ProbeOutcome`
giving the outcome of each successive `requests.get` invocation (the
`Nat` is the 0-based invocation index for that URL).  The thread pool's
nondeterministic completion order is abstracted by quantifying over any
permutation of the per-URL results.
-/

namespace CleanBookmarks

/-- Kind of a transport-level failure raised by `requests.get`:
`tls` is `requests.exceptions.SSLError`, `connTimeout` covers
`requests.exceptions.ConnectionError` and `requests.exceptions.Timeout`
(handled by the same `except` clause), and `generic` is any other
`requests.RequestException`. -/
inductive ErrorKind
  | tls
  | connTimeout
  | generic
deriving DecidableEq

/-- Outcome of one `requests.get(url, timeout=10, verify=False,
allow_redirects=True)` invocation: either a final HTTP status code or a
transport failure of some kind. -/
inductive ProbeOutcome
  | status (code : Nat)
  | transportError (kind : ErrorKind)
deriving DecidableEq

/-- The `(url, status_code, is_valid)` triple returned by
`check_link_validity`; `statusCode = none` models Python `None`. -/
structure LinkResult where
  url : String
  statusCode : Option Nat
  isValid : Bool
deriving DecidableEq

/-- A run of `check_link_validity`: its returned triple (`none` models
falling off the retry loop, i.e. the Python function returning `None`),
together with how many `requests.get` invocations it made and how many
`time.sleep(1)` calls it made. -/
structure RunStats where
  result : Option LinkResult
  probeCalls : Nat
  sleeps : Nat
deriving DecidableEq

/-- Helper for Python's substring test `pat in s`: `prefixHolds p s` is
true when the character list `p` starts the list `s`. -/
def prefixHolds : List Char → List Char → Bool
  | [], _ => true
  | _ :: _, [] => false
  | p :: ps, c :: cs => p == c && prefixHolds ps cs

/-- Helper for Python's substring test `pat in s`: `charsContains s p`
is true when `p` occurs as a contiguous run inside `s`. -/
def charsContains : List Char → List Char → Bool
  | [], pat => prefixHolds pat []
  | c :: rest, pat => prefixHolds pat (c :: rest) || charsContains rest pat

/-- Python's `pat in s` substring containment on strings. -/
def strContains (s pat : String) : Bool :=
  charsContains s.data pat.data

/-- The hardcoded trusted-allowlist keyword fragments
(`excluded_keywords` in `check_link_validity`). -/
def excluded_keywords : List String :=
  ["github", "google", "huggingface", "docker", "127.0.0.1", "localhost"]

/-- Python's `any(keyword in url for keyword in excluded_keywords)`. -/
def allowlisted (url : String) : Bool :=
  excluded_keywords.any (fun keyword => strContains url keyword)

/-- The constant `max_retries = 5` in `check_link_validity`. -/
def max_retries : Nat := 5

/-- The status-code classification used (twice, verbatim) inside
`check_link_validity`: `[200,400)` or `403` is valid, anything else is
invalid. -/
def statusValid (code : Nat) : Bool :=
  if 200 ≤ code ∧ code < 400 then true
  else if code = 403 then true
  else false

/-- The body of `for attempt in range(max_retries): ...` in
`check_link_validity`.  The first list argument is the list of remaining
attempt indices (initially `List.range max_retries`); `probeCalls` and
`sleeps` count the `requests.get` and `time.sleep(1)` invocations made so
far.  Branches, in source order: a received status code is classified and
returned at once; an `SSLError` triggers exactly one same-attempt
re-probe whose status code (if any) is classified identically, and whose
failure (any `RequestException`) falls into the ordinary transport-error
handling; `ConnectionError`/`Timeout` and generic `RequestException`
return `(url, None, False)` on the final attempt and otherwise sleep one
second and move to the next attempt. -/
def attemptLoop (url : String) (prober : Nat → ProbeOutcome) :
    List Nat → Nat → Nat → RunStats
  | [], probeCalls, sleeps => ⟨none, probeCalls, sleeps⟩
  | attempt :: rest, probeCalls, sleeps =>
    match prober probeCalls with
    | ProbeOutcome.status code =>
      if 200 ≤ code ∧ code < 400 then ⟨some ⟨url, some code, true⟩, probeCalls + 1, sleeps⟩
      else if code = 403 then ⟨some ⟨url, some code, true⟩, probeCalls + 1, sleeps⟩
      else ⟨some ⟨url, some code, false⟩, probeCalls + 1, sleeps⟩
    | ProbeOutcome.transportError ErrorKind.tls =>
      match prober (probeCalls + 1) with
      | ProbeOutcome.status code =>
        if 200 ≤ code ∧ code < 400 then ⟨some ⟨url, some code, true⟩, probeCalls + 2, sleeps⟩
        else if code = 403 then ⟨some ⟨url, some code, true⟩, probeCalls + 2, sleeps⟩
        else ⟨some ⟨url, some code, false⟩, probeCalls + 2, sleeps⟩
      | ProbeOutcome.transportError _ =>
        if attempt = max_retries - 1 then ⟨some ⟨url, none, false⟩, probeCalls + 2, sleeps⟩
        else attemptLoop url prober rest (probeCalls + 2) (sleeps + 1)
    | ProbeOutcome.transportError ErrorKind.connTimeout =>
      if attempt = max_retries - 1 then ⟨some ⟨url, none, false⟩, probeCalls + 1, sleeps⟩
      else attemptLoop url prober rest (probeCalls + 1) (sleeps + 1)
    | ProbeOutcome.transportError ErrorKind.generic =>
      if attempt = max_retries - 1 then ⟨some ⟨url, none, false⟩, probeCalls + 1, sleeps⟩
      else attemptLoop url prober rest (probeCalls + 1) (sleeps + 1)

/-- The function `check_link_validity(url)` from
`src/clean_bookmarks.py`, with the
network abstracted into `prober`.  A URL containing an allowlist keyword
returns `(url, 200, True)` immediately with no probe; everything else
runs the retry loop over attempts `range(max_retries)`. -/
def check_link_validity (url : String) (prober : Nat → ProbeOutcome) : RunStats :=
  if allowlisted url then ⟨some ⟨url, some 200, true⟩, 0, 0⟩
  else attemptLoop url prober (List.range max_retries) 0 0

/-- The pre-dispatch filter in `clean_bookmarks`:
`[... for link in links if "2025" not in link]`. -/
def dispatchedLinks (links : List String) : List String :=
  links.filter (fun link => !(strContains link "2025"))

/-- The multiset of `LinkResult`s produced by the dispatched tasks: one
per dispatched link, namely what `future.result()` yields for it
(`filterMap` because the embedded `check_link_validity` returns an
`Option`; it is in fact always `some`). -/
def engineResults (links : List String) (prober : String → Nat → ProbeOutcome) :
    List LinkResult :=
  (dispatchedLinks links).filterMap
    (fun link => (check_link_validity link (prober link)).result)

/-- One progress line `f"Checking link {i}/{len(links)}: {url}"`:
the 1-based completion index, the printed total, and the URL. -/
structure Progress where
  completedCount : Nat
  total : Nat
  url : String
deriving DecidableEq

/-- The state accumulated by the result-collection loop of
`clean_bookmarks`: `valid_links`, `invalid_links`, and the progress
lines printed, each in the order produced. -/
structure Report where
  valid_links : List String
  invalid_links : List String
  progress : List Progress
deriving DecidableEq

/-- The loop `for i, future in enumerate(as_completed(futures), 1): ...`
of `clean_bookmarks`, folding the completed triples (in completion
order) into the report.  `total` is `len(links)` as printed by the
progress line; `i` is the 1-based enumeration counter. -/
def collectLoop (total : Nat) : Nat → List LinkResult → Report
  | _, [] => ⟨[], [], []⟩
  | i, r :: rest =>
    let rep := collectLoop total (i + 1) rest
    if r.isValid then
      ⟨r.url :: rep.valid_links, rep.invalid_links, ⟨i, total, r.url⟩ :: rep.progress⟩
    else
      ⟨rep.valid_links, r.url :: rep.invalid_links, ⟨i, total, r.url⟩ :: rep.progress⟩

/-- The validation phase of `clean_bookmarks` applied to an arbitrary
completion order `completed` of the dispatched results (the thread pool
gives no ordering guarantee). -/
def engineRun (links : List String) (_prober : String → Nat → ProbeOutcome)
    (completed : List LinkResult) : Report :=
  collectLoop links.length 1 completed

/-- The validation phase of `clean_bookmarks` in submission order (one
particular completion order). -/
def clean_bookmarks (links : List String) (prober : String → Nat → ProbeOutcome) : Report :=
  engineRun links prober (engineResults links prober)

/-- The result-collection loop again, now with the possibility that a
`KeyboardInterrupt` fires while the `i`-th completion is being
collected (`interrupt = some i`); the interrupt propagates out of the
loop as an `Except.error`. -/
def collectLoopCancel (total : Nat) (interrupt : Option Nat) :
    Nat → List LinkResult → Except Unit Report
  | _, [] => Except.ok ⟨[], [], []⟩
  | i, r :: rest =>
    if interrupt = some i then Except.error ()
    else
      match collectLoopCancel total interrupt (i + 1) rest with
      | Except.error e => Except.error e
      | Except.ok rep =>
        if r.isValid then
          Except.ok ⟨r.url :: rep.valid_links, rep.invalid_links, ⟨i, total, r.url⟩ :: rep.progress⟩
        else
          Except.ok ⟨rep.valid_links, r.url :: rep.invalid_links, ⟨i, total, r.url⟩ :: rep.progress⟩

/-- What `clean_bookmarks` does with the collection loop's outcome:
`except KeyboardInterrupt: ... return` turns an interrupt into a normal
early return with no report (`cancelled`); otherwise the completed
report is produced. -/
inductive EngineOutcome
  | completed (report : Report)
  | cancelled
deriving DecidableEq

/-- The validation phase of `clean_bookmarks` with its
`try ... except KeyboardInterrupt` wrapper: an uncaught interrupt would
surface as `Except.error`, but the handler catches it and returns
normally. -/
def engineRunCancellable (links : List String) (_prober : String → Nat → ProbeOutcome)
    (completed : List LinkResult) (interrupt : Option Nat) : Except Unit EngineOutcome :=
  match collectLoopCancel links.length interrupt 1 completed with
  | Except.error _ => Except.ok EngineOutcome.cancelled
  | Except.ok rep => Except.ok (EngineOutcome.completed rep)

/-- A transport error handled by the plain retry path (not the
special-cased `SSLError`). -/
def nonTlsError (o : ProbeOutcome) : Prop :=
  o = ProbeOutcome.transportError ErrorKind.connTimeout ∨
    o = ProbeOutcome.transportError ErrorKind.generic

/-- A prober stub answering every invocation identically. -/
def constProber (o : ProbeOutcome) : Nat → ProbeOutcome := fun _ => o

/-- An engine-level prober stub answering every invocation of every URL
with HTTP 200. -/
def proberOk : String → Nat → ProbeOutcome := fun _ _ => ProbeOutcome.status 200

/-- An engine-level prober stub giving one URL a 200 and every other URL
a 404. -/
def proberMixed : String → Nat → ProbeOutcome :=
  fun u _ => if u = "http://a.com" then ProbeOutcome.status 200 else ProbeOutcome.status 404

/-- Invariant satisfied by any triple the retry controller can return:
its `url` field is the probed URL and `isValid` is set exactly when a
status code in the accepted set was received. -/
def ResultInv (url : String) : Option LinkResult → Prop
  | none => True
  | some r =>
    r.url = url ∧ (r.isValid = true ↔ ∃ c, r.statusCode = some c ∧ statusValid c = true)


/-! ### Helper lemmas about the retry controller -/

lemma statusValid_iff (c : Nat) :
    statusValid c = true ↔ ((200 ≤ c ∧ c < 400) ∨ c = 403) := by
  unfold statusValid
  split
  · simp_all
  · split <;> simp_all

/-- The retry loop always returns as long as the final attempt index
`max_retries - 1` is among the remaining attempts: every branch at that
attempt produces a result. -/
lemma attemptLoop_result_some (url : String) (prober : Nat → ProbeOutcome) :
    ∀ (l : List Nat) (probeCalls sleeps : Nat), (max_retries - 1) ∈ l →
      ∃ r, (attemptLoop url prober l probeCalls sleeps).result = some r := by
  intro l
  induction l with
  | nil => intro _ _ h; cases h
  | cons attempt rest ih =>
    intro probeCalls sleeps hmem
    rcases hp : prober probeCalls with code | kind
    · by_cases h1 : 200 ≤ code ∧ code < 400
      · exact ⟨⟨url, some code, true⟩, by simp [attemptLoop, hp, h1]⟩
      · by_cases h2 : code = 403
        · exact ⟨⟨url, some code, true⟩, by simp [attemptLoop, hp, h1, h2]⟩
        · exact ⟨⟨url, some code, false⟩, by simp [attemptLoop, hp, h1, h2]⟩
    · cases kind with
      | tls =>
        rcases hp2 : prober (probeCalls + 1) with code | kind2
        · by_cases h1 : 200 ≤ code ∧ code < 400
          · exact ⟨⟨url, some code, true⟩, by simp [attemptLoop, hp, hp2, h1]⟩
          · by_cases h2 : code = 403
            · exact ⟨⟨url, some code, true⟩, by simp [attemptLoop, hp, hp2, h1, h2]⟩
            · exact ⟨⟨url, some code, false⟩, by simp [attemptLoop, hp, hp2, h1, h2]⟩
        · by_cases hfin : attempt = max_retries - 1
          · exact ⟨⟨url, none, false⟩, by simp [attemptLoop, hp, hp2, hfin]⟩
          · have hmem2 : (max_retries - 1) ∈ rest := by
              rcases List.mem_cons.mp hmem with h | h
              · exact absurd h.symm hfin
              · exact h
            obtain ⟨r, hr⟩ := ih (probeCalls + 2) (sleeps + 1) hmem2
            exact ⟨r, by simp [attemptLoop, hp, hp2, hfin]; exact hr⟩
      | connTimeout =>
        by_cases hfin : attempt = max_retries - 1
        · exact ⟨⟨url, none, false⟩, by simp [attemptLoop, hp, hfin]⟩
        · have hmem2 : (max_retries - 1) ∈ rest := by
            rcases List.mem_cons.mp hmem with h | h
            · exact absurd h.symm hfin
            · exact h
          obtain ⟨r, hr⟩ := ih (probeCalls + 1) (sleeps + 1) hmem2
          exact ⟨r, by simp [attemptLoop, hp, hfin]; exact hr⟩
      | generic =>
        by_cases hfin : attempt = max_retries - 1
        · exact ⟨⟨url, none, false⟩, by simp [attemptLoop, hp, hfin]⟩
        · have hmem2 : (max_retries - 1) ∈ rest := by
            rcases List.mem_cons.mp hmem with h | h
            · exact absurd h.symm hfin
            · exact h
          obtain ⟨r, hr⟩ := ih (probeCalls + 1) (sleeps + 1) hmem2
          exact ⟨r, by simp [attemptLoop, hp, hfin]; exact hr⟩

lemma attemptLoop_inv (url : String) (prober : Nat → ProbeOutcome) :
    ∀ (l : List Nat) (probeCalls sleeps : Nat),
      ResultInv url (attemptLoop url prober l probeCalls sleeps).result := by
  intro l
  induction l with
  | nil => intro _ _; simp [attemptLoop, ResultInv]
  | cons attempt rest ih =>
    intro probeCalls sleeps
    rcases hp : prober probeCalls with code | kind
    · by_cases h1 : 200 ≤ code ∧ code < 400
      · simp [attemptLoop, hp, h1, ResultInv, statusValid_iff]
      · by_cases h2 : code = 403
        · simp [attemptLoop, hp, h1, h2, ResultInv, statusValid_iff]
        · simp [attemptLoop, hp, h1, h2, ResultInv, statusValid_iff]
    · cases kind with
      | tls =>
        rcases hp2 : prober (probeCalls + 1) with code | kind2
        · by_cases h1 : 200 ≤ code ∧ code < 400
          · simp [attemptLoop, hp, hp2, h1, ResultInv, statusValid_iff]
          · by_cases h2 : code = 403
            · simp [attemptLoop, hp, hp2, h1, h2, ResultInv, statusValid_iff]
            · simp [attemptLoop, hp, hp2, h1, h2, ResultInv, statusValid_iff]
        · by_cases hfin : attempt = max_retries - 1
          · simp [attemptLoop, hp, hp2, hfin, ResultInv]
          · simpa [attemptLoop, hp, hp2, hfin] using ih (probeCalls + 2) (sleeps + 1)
      | connTimeout =>
        by_cases hfin : attempt = max_retries - 1
        · simp [attemptLoop, hp, hfin, ResultInv]
        · simpa [attemptLoop, hp, hfin] using ih (probeCalls + 1) (sleeps + 1)
      | generic =>
        by_cases hfin : attempt = max_retries - 1
        · simp [attemptLoop, hp, hfin, ResultInv]
        · simpa [attemptLoop, hp, hfin] using ih (probeCalls + 1) (sleeps + 1)

lemma check_result_some (url : String) (prober : Nat → ProbeOutcome) :
    ∃ r, (check_link_validity url prober).result = some r := by
  unfold check_link_validity
  by_cases ha : allowlisted url
  · exact ⟨⟨url, some 200, true⟩, by simp [ha]⟩
  · have hmem : (max_retries - 1) ∈ List.range max_retries := by
      simp [max_retries]
    simpa [ha] using attemptLoop_result_some url prober (List.range max_retries) 0 0 hmem

lemma check_inv (url : String) (prober : Nat → ProbeOutcome) :
    ResultInv url (check_link_validity url prober).result := by
  unfold check_link_validity
  by_cases ha : allowlisted url
  · simp [ha, ResultInv, statusValid_iff]
  · simpa [ha] using attemptLoop_inv url prober (List.range max_retries) 0 0

/-- Running the loop from attempt `j` with only plain (non-TLS)
transport errors for the remaining `n` attempts: one probe and (except
after the final attempt) one sleep per attempt, ending in
`(url, None, False)`. -/
lemma attemptLoop_allErr (url : String) (prober : Nat → ProbeOutcome) :
    ∀ (n j probeCalls sleeps : Nat), 0 < n → j + n = max_retries →
      (∀ i, i < n → nonTlsError (prober (probeCalls + i))) →
      attemptLoop url prober (List.range' j n) probeCalls sleeps =
        ⟨some ⟨url, none, false⟩, probeCalls + n, sleeps + (n - 1)⟩ := by
  intro n
  induction n with
  | zero => omega
  | succ m ih =>
    intro j probeCalls sleeps _ hsum herr
    rw [List.range'_succ]
    have h0 : nonTlsError (prober (probeCalls + 0)) := herr 0 (by omega)
    rw [Nat.add_zero] at h0
    rcases Nat.eq_zero_or_pos m with hm | hm
    · subst hm
      have hfin : j = max_retries - 1 := by simp [max_retries] at hsum ⊢; omega
      rcases h0 with hp | hp <;> simp [attemptLoop, hp, hfin]
    · have hfin : j ≠ max_retries - 1 := by simp [max_retries] at hsum ⊢; omega
      have hrec :
          attemptLoop url prober (List.range' (j + 1) m) (probeCalls + 1) (sleeps + 1) =
            ⟨some ⟨url, none, false⟩, probeCalls + 1 + m, sleeps + 1 + (m - 1)⟩ := by
        apply ih (j + 1) (probeCalls + 1) (sleeps + 1) hm (by omega)
        intro i hi
        have h := herr (i + 1) (by omega)
        have e : probeCalls + (i + 1) = probeCalls + 1 + i := by omega
        rw [e] at h
        exact h
      rcases h0 with hp | hp <;>
        · rw [show attemptLoop url prober (j :: List.range' (j + 1) m) probeCalls sleeps =
              attemptLoop url prober (List.range' (j + 1) m) (probeCalls + 1) (sleeps + 1) by
            simp [attemptLoop, hp, hfin]]
          rw [hrec]
          simp only [RunStats.mk.injEq]
          exact ⟨trivial, by omega, by omega⟩

/-- Running the loop from attempt `j` with plain transport errors on the
first `m` probes and a status code on probe `m`: `m` sleeps, `m + 1`
probes, and the classified status as the result. -/
lemma attemptLoop_errThenStatus (url : String) (prober : Nat → ProbeOutcome) :
    ∀ (m j probeCalls sleeps sc : Nat), j + m < max_retries →
      (∀ i, i < m → nonTlsError (prober (probeCalls + i))) →
      prober (probeCalls + m) = ProbeOutcome.status sc →
      attemptLoop url prober (List.range' j (max_retries - j)) probeCalls sleeps =
        ⟨some ⟨url, some sc, statusValid sc⟩, probeCalls + m + 1, sleeps + m⟩ := by
  intro m
  induction m with
  | zero =>
    intro j probeCalls sleeps sc hj _ hp
    rw [Nat.add_zero] at hp
    have hsub : max_retries - j = (max_retries - (j + 1)) + 1 := by omega
    rw [hsub, List.range'_succ]
    by_cases h1 : 200 ≤ sc ∧ sc < 400
    · simp [attemptLoop, hp, h1, statusValid]
    · by_cases h2 : sc = 403
      · simp [attemptLoop, hp, h1, h2, statusValid]
      · simp [attemptLoop, hp, h1, h2, statusValid]
  | succ m ih =>
    intro j probeCalls sleeps sc hj herr hp
    have hsub : max_retries - j = (max_retries - (j + 1)) + 1 := by omega
    rw [hsub, List.range'_succ]
    have h0 : nonTlsError (prober (probeCalls + 0)) := herr 0 (by omega)
    rw [Nat.add_zero] at h0
    have hfin : j ≠ max_retries - 1 := by simp [max_retries] at hj ⊢; omega
    have hrec :
        attemptLoop url prober (List.range' (j + 1) (max_retries - (j + 1)))
            (probeCalls + 1) (sleeps + 1) =
          ⟨some ⟨url, some sc, statusValid sc⟩, probeCalls + 1 + m + 1, sleeps + 1 + m⟩ := by
      apply ih (j + 1) (probeCalls + 1) (sleeps + 1) sc (by omega)
      · intro i hi
        have h := herr (i + 1) (by omega)
        have e : probeCalls + (i + 1) = probeCalls + 1 + i := by omega
        rw [e] at h
        exact h
      · have e : probeCalls + (m + 1) = probeCalls + 1 + m := by omega
        rw [e] at hp
        exact hp
    rcases h0 with hp0 | hp0 <;>
      · rw [show attemptLoop url prober
              (j :: List.range' (j + 1) (max_retries - (j + 1))) probeCalls sleeps =
            attemptLoop url prober (List.range' (j + 1) (max_retries - (j + 1)))
              (probeCalls + 1) (sleeps + 1) by
          simp [attemptLoop, hp0, hfin]]
        rw [hrec]
        simp only [RunStats.mk.injEq]
        exact ⟨trivial, by omega, by omega⟩

/-- Running the loop from attempt `j` with a TLS failure on every probe:
two probes per attempt (the original and the same-attempt re-probe), one
sleep per non-final attempt, ending in `(url, None, False)`. -/
lemma attemptLoop_allTls (url : String) (prober : Nat → ProbeOutcome) :
    ∀ (n j probeCalls sleeps : Nat), 0 < n → j + n = max_retries →
      (∀ i, prober i = ProbeOutcome.transportError ErrorKind.tls) →
      attemptLoop url prober (List.range' j n) probeCalls sleeps =
        ⟨some ⟨url, none, false⟩, probeCalls + 2 * n, sleeps + (n - 1)⟩ := by
  intro n
  induction n with
  | zero => omega
  | succ m ih =>
    intro j probeCalls sleeps _ hsum htls
    rw [List.range'_succ]
    rcases Nat.eq_zero_or_pos m with hm | hm
    · subst hm
      have hfin : j = max_retries - 1 := by simp [max_retries] at hsum ⊢; omega
      simp [attemptLoop, htls probeCalls, htls (probeCalls + 1), hfin]
    · have hfin : j ≠ max_retries - 1 := by simp [max_retries] at hsum ⊢; omega
      rw [show attemptLoop url prober (j :: List.range' (j + 1) m) probeCalls sleeps =
            attemptLoop url prober (List.range' (j + 1) m) (probeCalls + 2) (sleeps + 1) by
        simp [attemptLoop, htls probeCalls, htls (probeCalls + 1), hfin]]
      rw [ih (j + 1) (probeCalls + 2) (sleeps + 1) hm (by omega) htls]
      simp only [RunStats.mk.injEq]
      exact ⟨trivial, by omega, by omega⟩

/-! ### Helper lemmas about the validation engine -/

lemma collectLoop_valid_links (total : Nat) :
    ∀ (i : Nat) (l : List LinkResult),
      (collectLoop total i l).valid_links =
        (l.filter (fun r => r.isValid)).map (fun r => r.url) := by
  intro i l
  induction l generalizing i with
  | nil => simp [collectLoop]
  | cons r rest ih =>
    by_cases h : r.isValid <;> simp [collectLoop, List.filter, h, ih]

lemma collectLoop_invalid_links (total : Nat) :
    ∀ (i : Nat) (l : List LinkResult),
      (collectLoop total i l).invalid_links =
        (l.filter (fun r => !r.isValid)).map (fun r => r.url) := by
  intro i l
  induction l generalizing i with
  | nil => simp [collectLoop]
  | cons r rest ih =>
    by_cases h : r.isValid <;> simp [collectLoop, List.filter, h, ih]

lemma collectLoop_progress_total (total : Nat) :
    ∀ (i : Nat) (l : List LinkResult) (p : Progress),
      p ∈ (collectLoop total i l).progress → p.total = total := by
  intro i l
  induction l generalizing i with
  | nil => simp [collectLoop]
  | cons r rest ih =>
    intro p hp
    by_cases h : r.isValid <;>
      · simp [collectLoop, h] at hp
        rcases hp with hp | hp
        · subst hp; rfl
        · exact ih (i + 1) p hp

lemma length_filter_add_length_filter_not (l : List LinkResult) :
    (l.filter (fun r => r.isValid)).length +
      (l.filter (fun r => !r.isValid)).length = l.length := by
  induction l with
  | nil => rfl
  | cons r rest ih =>
    by_cases h : r.isValid <;> simp [List.filter, h] <;> omega

/-- Every dispatched link contributes exactly its own result, so mapping
the `url` field over `engineResults` recovers the dispatched list. -/
lemma engineResults_map_url (links : List String) (prober : String → Nat → ProbeOutcome) :
    (engineResults links prober).map (fun r => r.url) = dispatchedLinks links := by
  unfold engineResults
  induction dispatchedLinks links with
  | nil => rfl
  | cons u rest ih =>
    obtain ⟨r, hr⟩ := check_result_some u (prober u)
    have hurl : r.url = u := by
      have h := check_inv u (prober u)
      rw [hr] at h
      exact h.1
    simp [List.filterMap_cons, hr, hurl, ih]

lemma engineResults_length (links : List String) (prober : String → Nat → ProbeOutcome) :
    (engineResults links prober).length = (dispatchedLinks links).length := by
  have h := engineResults_map_url links prober
  calc (engineResults links prober).length
      = ((engineResults links prober).map (fun r => r.url)).length := by simp
    _ = (dispatchedLinks links).length := by rw [h]

/-- Every member of `engineResults` is the result of checking some
dispatched link. -/
lemma mem_engineResults (links : List String) (prober : String → Nat → ProbeOutcome)
    (r : LinkResult) (hr : r ∈ engineResults links prober) :
    ∃ u ∈ dispatchedLinks links,
      (check_link_validity u (prober u)).result = some r := by
  simpa [engineResults] using List.mem_filterMap.mp hr

/-- Conversely, every dispatched link's result is a member of
`engineResults`. -/
lemma result_mem_engineResults (links : List String) (prober : String → Nat → ProbeOutcome)
    (u : String) (hu : u ∈ dispatchedLinks links) (r : LinkResult)
    (hr : (check_link_validity u (prober u)).result = some r) :
    r ∈ engineResults links prober := by
  exact List.mem_filterMap.mpr ⟨u, hu, hr⟩

lemma collectLoopCancel_no_interrupt (total : Nat) :
    ∀ (i : Nat) (l : List LinkResult),
      collectLoopCancel total none i l = Except.ok (collectLoop total i l) := by
  intro i l
  induction l generalizing i with
  | nil => rfl
  | cons r rest ih =>
    by_cases h : r.isValid <;> simp [collectLoopCancel, collectLoop, ih (i + 1), h]

lemma collectLoopCancel_interrupted (total j : Nat) :
    ∀ (i : Nat) (l : List LinkResult), i ≤ j → j < i + l.length →
      collectLoopCancel total (some j) i l = Except.error () := by
  intro i l
  induction l generalizing i with
  | nil => intro h1 h2; simp at h2; omega
  | cons r rest ih =>
    intro h1 h2
    by_cases hij : j = i
    · simp [collectLoopCancel, hij]
    · have : (some j : Option Nat) ≠ some i := by simp [hij]
      simp only [collectLoopCancel, if_neg this]
      rw [ih (i + 1) (by omega) (by simp at h2 ⊢; omega)]

lemma engineRun_mem_valid (links : List String) (prober : String → Nat → ProbeOutcome)
    (completed : List LinkResult) (u : String) :
    u ∈ (engineRun links prober completed).valid_links ↔
      ∃ r ∈ completed, r.url = u ∧ r.isValid = true := by
  simp only [engineRun, collectLoop_valid_links, List.mem_map, List.mem_filter]
  constructor
  · rintro ⟨r, ⟨hr, hv⟩, hu⟩
    exact ⟨r, hr, hu, hv⟩
  · rintro ⟨r, hr, hu, hv⟩
    exact ⟨r, ⟨hr, hv⟩, hu⟩

lemma engineRun_mem_invalid (links : List String) (prober : String → Nat → ProbeOutcome)
    (completed : List LinkResult) (u : String) :
    u ∈ (engineRun links prober completed).invalid_links ↔
      ∃ r ∈ completed, r.url = u ∧ r.isValid = false := by
  simp only [engineRun, collectLoop_invalid_links, List.mem_map, List.mem_filter,
    Bool.not_eq_true']
  constructor
  · rintro ⟨r, ⟨hr, hv⟩, hu⟩
    exact ⟨r, hr, hu, hv⟩
  · rintro ⟨r, hr, hu, hv⟩
    exact ⟨r, ⟨hr, hv⟩, hu⟩

/-- Any result in a completion order of the engine came from checking a
dispatched link, so its URL is a dispatched URL. -/
lemma completed_url_dispatched (links : List String) (prober : String → Nat → ProbeOutcome)
    (completed : List LinkResult) (hperm : completed.Perm (engineResults links prober))
    (r : LinkResult) (hr : r ∈ completed) : r.url ∈ dispatchedLinks links := by
  have hr2 : r ∈ engineResults links prober := hperm.mem_iff.mp hr
  obtain ⟨u, hu, hres⟩ := mem_engineResults links prober r hr2
  have hinv := check_inv u (prober u)
  rw [hres] at hinv
  rw [hinv.1]
  exact hu

/-- In any completion order of the engine, the URLs of the results are a
permutation of the dispatched links. -/
lemma completed_map_url_perm (links : List String) (prober : String → Nat → ProbeOutcome)
    (completed : List LinkResult) (hperm : completed.Perm (engineResults links prober)) :
    (completed.map (fun r => r.url)).Perm (dispatchedLinks links) := by
  have h := hperm.map (fun r => r.url)
  rw [engineResults_map_url] at h
  exact h

/-! ### The claims -/

/-- Claim C1: for a non-allowlisted URL whose first probe returns status
code `sc`, `check_link_validity` returns `(url, sc, true)` when
`200 ≤ sc < 400` or `sc = 403` and `(url, sc, false)` otherwise, with
exactly one probe invocation and no sleep. -/
theorem claim_C1 (url : String) (prober : Nat → ProbeOutcome) (sc : Nat)
    (hall : allowlisted url = false) (hp : prober 0 = ProbeOutcome.status sc) :
    (((200 ≤ sc ∧ sc < 400) ∨ sc = 403) →
      check_link_validity url prober = ⟨some ⟨url, some sc, true⟩, 1, 0⟩) ∧
    (¬((200 ≤ sc ∧ sc < 400) ∨ sc = 403) →
      check_link_validity url prober = ⟨some ⟨url, some sc, false⟩, 1, 0⟩) := by
  have hrange : List.range max_retries = List.range' 0 (max_retries - 0) := by
    rw [Nat.sub_zero, List.range_eq_range']
  have h := attemptLoop_errThenStatus url prober 0 0 0 0 sc
    (by simp [max_retries]) (by intro i hi; omega) (by simpa using hp)
  have hcheck : check_link_validity url prober =
      ⟨some ⟨url, some sc, statusValid sc⟩, 1, 0⟩ := by
    unfold check_link_validity
    rw [hall]
    simpa [hrange] using h
  constructor
  · intro hok
    rw [hcheck, (statusValid_iff sc).mpr hok]
  · intro hbad
    have : statusValid sc = false := by
      rcases Bool.eq_false_or_eq_true (statusValid sc) with h | h
      · exact absurd ((statusValid_iff sc).mp h) hbad
      · exact h
    rw [hcheck, this]

theorem claim_C1_witness :
    check_link_validity "http://example.com" (constProber (ProbeOutcome.status 404)) =
      ⟨some ⟨"http://example.com", some 404, false⟩, 1, 0⟩ :=
  (claim_C1 "http://example.com" (constProber (ProbeOutcome.status 404)) 404
    (by decide) rfl).2 (by decide)

/-- Claim C2: for a non-allowlisted URL, plain transport errors on
attempts `1..k-1` followed by a status code on attempt `k ≤ 5` give the
classified result after exactly `k` probes and `k - 1` sleeps; plain
transport errors on all attempts give `(url, None, False)` after exactly
`max_retries = 5` probes with a sleep between consecutive attempts
(`max_retries - 1 = 4` sleeps in total). -/
theorem claim_C2 (url : String) (prober : Nat → ProbeOutcome)
    (hall : allowlisted url = false) :
    (∀ k sc, 1 ≤ k → k ≤ max_retries →
      (∀ i, i < k - 1 → nonTlsError (prober i)) →
      prober (k - 1) = ProbeOutcome.status sc →
      check_link_validity url prober =
        ⟨some ⟨url, some sc, statusValid sc⟩, k, k - 1⟩) ∧
    ((∀ i, i < max_retries → nonTlsError (prober i)) →
      check_link_validity url prober =
        ⟨some ⟨url, none, false⟩, max_retries, max_retries - 1⟩) := by
  have hrange : List.range max_retries = List.range' 0 (max_retries - 0) := by
    rw [Nat.sub_zero, List.range_eq_range']
  constructor
  · intro k sc hk1 hk5 herr hp
    have h := attemptLoop_errThenStatus url prober (k - 1) 0 0 0 sc
      (by simp [max_retries] at hk5 ⊢; omega)
      (by intro i hi; simpa using herr i hi)
      (by simpa using hp)
    unfold check_link_validity
    rw [hall]
    simp only [Bool.false_eq_true, if_false, hrange]
    rw [h]
    simp only [RunStats.mk.injEq]
    exact ⟨trivial, by omega, by omega⟩
  · intro herr
    have h := attemptLoop_allErr url prober max_retries 0 0 0
      (by simp [max_retries]) (by omega)
      (by intro i hi; simpa using herr i hi)
    unfold check_link_validity
    rw [hall]
    simp only [Bool.false_eq_true, if_false]
    rw [List.range_eq_range']
    rw [h]
    simp only [RunStats.mk.injEq]
    exact ⟨trivial, by omega, by omega⟩

theorem claim_C2_witness :
    check_link_validity "http://example.com"
        (fun i => if i < 2 then ProbeOutcome.transportError ErrorKind.connTimeout
          else ProbeOutcome.status 200) =
      ⟨some ⟨"http://example.com", some 200, true⟩, 3, 2⟩ := by
  have h := (claim_C2 "http://example.com"
      (fun i => if i < 2 then ProbeOutcome.transportError ErrorKind.connTimeout
        else ProbeOutcome.status 200) (by decide)).1 3 200
    (by decide) (by decide)
    (by intro i hi
        interval_cases i <;> exact Or.inl rfl)
    (by decide)
  simpa [statusValid] using h

/-- Claim C3: a URL containing any trusted-allowlist keyword fragment
resolves to `(url, 200, true)` with zero probe invocations. -/
theorem claim_C3 (url : String) (prober : Nat → ProbeOutcome)
    (h : ∃ keyword ∈ excluded_keywords, strContains url keyword = true) :
    check_link_validity url prober = ⟨some ⟨url, some 200, true⟩, 0, 0⟩ := by
  have ha : allowlisted url = true := by
    unfold allowlisted
    exact List.any_eq_true.mpr h
  simp [check_link_validity, ha]

theorem claim_C3_witness :
    check_link_validity "https://github.com/torvalds/linux"
        (constProber (ProbeOutcome.transportError ErrorKind.connTimeout)) =
      ⟨some ⟨"https://github.com/torvalds/linux", some 200, true⟩, 0, 0⟩ :=
  claim_C3 "https://github.com/torvalds/linux"
    (constProber (ProbeOutcome.transportError ErrorKind.connTimeout))
    ⟨"github", by decide, by decide⟩

/-- Claim C4: a TLS-class failure triggers exactly one same-attempt
re-probe not counted against the 5-attempt budget: if the re-probe
returns a status code it is classified normally (2 probes, same
attempt), and if it fails with any transport error the ordinary
transport-error handling of the current attempt applies (2 probes
consumed, then final-attempt return or sleep-and-retry); consequently a
prober failing with TLS errors on every call yields `(url, None, False)`
after `2 * max_retries = 10` probes. -/
theorem claim_C4 (url : String) (prober : Nat → ProbeOutcome) :
    (∀ attempt (rest : List Nat) (probeCalls sleeps : Nat),
      prober probeCalls = ProbeOutcome.transportError ErrorKind.tls →
      (∀ sc, prober (probeCalls + 1) = ProbeOutcome.status sc →
        attemptLoop url prober (attempt :: rest) probeCalls sleeps =
          ⟨some ⟨url, some sc, statusValid sc⟩, probeCalls + 2, sleeps⟩) ∧
      (∀ kind, prober (probeCalls + 1) = ProbeOutcome.transportError kind →
        attemptLoop url prober (attempt :: rest) probeCalls sleeps =
          if attempt = max_retries - 1 then
            ⟨some ⟨url, none, false⟩, probeCalls + 2, sleeps⟩
          else attemptLoop url prober rest (probeCalls + 2) (sleeps + 1))) ∧
    (allowlisted url = false →
      (∀ i, prober i = ProbeOutcome.transportError ErrorKind.tls) →
      check_link_validity url prober =
        ⟨some ⟨url, none, false⟩, 2 * max_retries, max_retries - 1⟩) := by
  constructor
  · intro attempt rest probeCalls sleeps hp
    constructor
    · intro sc hp2
      by_cases h1 : 200 ≤ sc ∧ sc < 400
      · simp [attemptLoop, hp, hp2, h1, statusValid]
      · by_cases h2 : sc = 403
        · simp [attemptLoop, hp, hp2, h1, h2, statusValid]
        · simp [attemptLoop, hp, hp2, h1, h2, statusValid]
    · intro kind hp2
      by_cases hfin : attempt = max_retries - 1 <;>
        simp [attemptLoop, hp, hp2, hfin]
  · intro hall htls
    have h := attemptLoop_allTls url prober max_retries 0 0 0
      (by simp [max_retries]) (by omega) htls
    unfold check_link_validity
    rw [hall]
    simp only [Bool.false_eq_true, if_false]
    rw [List.range_eq_range']
    rw [h]
    simp only [RunStats.mk.injEq]
    exact ⟨trivial, by omega, by omega⟩

theorem claim_C4_witness :
    check_link_validity "http://example.com"
        (constProber (ProbeOutcome.transportError ErrorKind.tls)) =
      ⟨some ⟨"http://example.com", none, false⟩, 2 * max_retries, max_retries - 1⟩ :=
  (claim_C4 "http://example.com"
    (constProber (ProbeOutcome.transportError ErrorKind.tls))).2
    (by decide) (fun _ => rfl)

/-- Claim C8: the retry controller is total: for every URL and every
prober behaviour it returns exactly one `(url, statusCode, isValid)`
triple — the loop cannot be exited without producing a result (modelled
as `some`), and the result carries the probed URL. -/
theorem claim_C8 (url : String) (prober : Nat → ProbeOutcome) :
    ∃ r, (check_link_validity url prober).result = some r ∧ r.url = url := by
  obtain ⟨r, hr⟩ := check_result_some url prober
  have hinv := check_inv url prober
  rw [hr] at hinv
  exact ⟨r, hr, hinv.1⟩

/-- Claim C10: any triple returned by the retry controller satisfies
`isValid = true` exactly when a status code is present and lies in
`[200, 400)` or equals `403`; in particular an absent status code forces
`isValid = false`. -/
theorem claim_C10 (url : String) (prober : Nat → ProbeOutcome) (r : LinkResult)
    (hr : (check_link_validity url prober).result = some r) :
    (r.isValid = true ↔
      ∃ c, r.statusCode = some c ∧ ((200 ≤ c ∧ c < 400) ∨ c = 403)) ∧
    (r.statusCode = none → r.isValid = false) := by
  have hinv := check_inv url prober
  rw [hr] at hinv
  have hiff : r.isValid = true ↔
      ∃ c, r.statusCode = some c ∧ ((200 ≤ c ∧ c < 400) ∨ c = 403) := by
    rw [hinv.2]
    constructor
    · rintro ⟨c, hc, hv⟩
      exact ⟨c, hc, (statusValid_iff c).mp hv⟩
    · rintro ⟨c, hc, hv⟩
      exact ⟨c, hc, (statusValid_iff c).mpr hv⟩
  refine ⟨hiff, ?_⟩
  intro hnone
  rcases Bool.eq_false_or_eq_true r.isValid with h | h
  · obtain ⟨c, hc, _⟩ := hiff.mp h
    rw [hnone] at hc
    cases hc
  · exact h

theorem claim_C10_witness :
    ((⟨"http://example.com", some 404, false⟩ : LinkResult).isValid = true ↔
      ∃ c, (⟨"http://example.com", some 404, false⟩ : LinkResult).statusCode = some c ∧
        ((200 ≤ c ∧ c < 400) ∨ c = 403)) ∧
    ((⟨"http://example.com", some 404, false⟩ : LinkResult).statusCode = none →
      (⟨"http://example.com", some 404, false⟩ : LinkResult).isValid = false) :=
  claim_C10 "http://example.com" (constProber (ProbeOutcome.status 404))
    ⟨"http://example.com", some 404, false⟩ (by decide)

/-- Claim C5: a URL containing the substring `"2025"` is never
dispatched and appears in neither `valid_links` nor `invalid_links`,
for any completion order of the engine. -/
theorem claim_C5 (links : List String) (prober : String → Nat → ProbeOutcome)
    (completed : List LinkResult) (hperm : completed.Perm (engineResults links prober))
    (url : String) (h2025 : strContains url "2025" = true) :
    url ∉ dispatchedLinks links ∧
    url ∉ (engineRun links prober completed).valid_links ∧
    url ∉ (engineRun links prober completed).invalid_links := by
  have hnd : url ∉ dispatchedLinks links := by
    intro hmem
    have h := (List.mem_filter.mp hmem).2
    rw [h2025] at h
    cases h
  refine ⟨hnd, ?_, ?_⟩
  · intro hmem
    obtain ⟨r, hr, hu, _⟩ := (engineRun_mem_valid links prober completed url).mp hmem
    have h := completed_url_dispatched links prober completed hperm r hr
    rw [hu] at h
    exact hnd h
  · intro hmem
    obtain ⟨r, hr, hu, _⟩ := (engineRun_mem_invalid links prober completed url).mp hmem
    have h := completed_url_dispatched links prober completed hperm r hr
    rw [hu] at h
    exact hnd h

theorem claim_C5_witness :
    "http://a2025.com" ∉ dispatchedLinks ["http://a2025.com", "http://b.com"] ∧
    "http://a2025.com" ∉ (engineRun ["http://a2025.com", "http://b.com"] proberOk
        (engineResults ["http://a2025.com", "http://b.com"] proberOk)).valid_links ∧
    "http://a2025.com" ∉ (engineRun ["http://a2025.com", "http://b.com"] proberOk
        (engineResults ["http://a2025.com", "http://b.com"] proberOk)).invalid_links :=
  claim_C5 ["http://a2025.com", "http://b.com"] proberOk
    (engineResults ["http://a2025.com", "http://b.com"] proberOk) (List.Perm.refl _)
    "http://a2025.com" (by decide)

/-- Claim C6 fails as stated: the engine appends to plain lists, so an
input sequence that dispatches the same URL twice produces duplicate
entries in `valid_links` (here `"http://a.com"` appears twice), while
the claim promises no duplicate entries for every input sequence. -/
theorem claim_C6_counterexample :
    (clean_bookmarks ["http://a.com", "http://a.com"] proberOk).valid_links =
      ["http://a.com", "http://a.com"] ∧
    ¬ (clean_bookmarks ["http://a.com", "http://a.com"] proberOk).valid_links.Nodup := by
  refine ⟨by decide, by decide⟩

/-- Claim C6 (amended): in any completion order, `|valid| + |invalid|`
equals the number of dispatched URLs, every dispatched URL appears in
at least one of the two lists, and both lists contain only dispatched
URLs — for every input sequence, duplicate occurrences included; when
the dispatched URLs are pairwise distinct, additionally every
dispatched URL lands in exactly one of the two lists and both lists are
duplicate-free. -/
theorem claim_C6 (links : List String) (prober : String → Nat → ProbeOutcome)
    (completed : List LinkResult)
    (hperm : completed.Perm (engineResults links prober)) :
    (engineRun links prober completed).valid_links.length +
        (engineRun links prober completed).invalid_links.length =
      (dispatchedLinks links).length ∧
    (∀ u ∈ dispatchedLinks links,
      u ∈ (engineRun links prober completed).valid_links ∨
      u ∈ (engineRun links prober completed).invalid_links) ∧
    (∀ u, (u ∈ (engineRun links prober completed).valid_links ∨
        u ∈ (engineRun links prober completed).invalid_links) →
      u ∈ dispatchedLinks links) ∧
    ((dispatchedLinks links).Nodup →
      (∀ u ∈ dispatchedLinks links,
        (u ∈ (engineRun links prober completed).valid_links ∧
          u ∉ (engineRun links prober completed).invalid_links) ∨
        (u ∈ (engineRun links prober completed).invalid_links ∧
          u ∉ (engineRun links prober completed).valid_links)) ∧
      (engineRun links prober completed).valid_links.Nodup ∧
      (engineRun links prober completed).invalid_links.Nodup) := by
  have hvl : (engineRun links prober completed).valid_links =
      (completed.filter (fun r => r.isValid)).map (fun r => r.url) :=
    collectLoop_valid_links links.length 1 completed
  have hil : (engineRun links prober completed).invalid_links =
      (completed.filter (fun r => !r.isValid)).map (fun r => r.url) :=
    collectLoop_invalid_links links.length 1 completed
  have hlen : completed.length = (dispatchedLinks links).length :=
    hperm.length_eq.trans (engineResults_length links prober)
  have hcover : ∀ u ∈ dispatchedLinks links,
      u ∈ (engineRun links prober completed).valid_links ∨
      u ∈ (engineRun links prober completed).invalid_links := by
    intro u hu
    obtain ⟨r, hr⟩ := check_result_some u (prober u)
    have hrm : r ∈ engineResults links prober :=
      result_mem_engineResults links prober u hu r hr
    have hrc : r ∈ completed := hperm.mem_iff.mpr hrm
    have hurl : r.url = u := by
      have h := check_inv u (prober u)
      rw [hr] at h
      exact h.1
    rcases Bool.eq_false_or_eq_true r.isValid with hb | hb
    · exact Or.inl ((engineRun_mem_valid links prober completed u).mpr ⟨r, hrc, hurl, hb⟩)
    · exact Or.inr ((engineRun_mem_invalid links prober completed u).mpr ⟨r, hrc, hurl, hb⟩)
  refine ⟨?_, hcover, ?_, ?_⟩
  · rw [hvl, hil]
    rw [List.length_map, List.length_map]
    rw [length_filter_add_length_filter_not completed]
    exact hlen
  · intro u hu
    rcases hu with hu | hu
    · obtain ⟨r, hr, hurl, _⟩ := (engineRun_mem_valid links prober completed u).mp hu
      have h := completed_url_dispatched links prober completed hperm r hr
      rw [hurl] at h
      exact h
    · obtain ⟨r, hr, hurl, _⟩ := (engineRun_mem_invalid links prober completed u).mp hu
      have h := completed_url_dispatched links prober completed hperm r hr
      rw [hurl] at h
      exact h
  · intro hnd
    have hndu : (completed.map (fun r => r.url)).Nodup :=
      ((completed_map_url_perm links prober completed hperm).nodup_iff).mpr hnd
    have hexcl : ∀ u, u ∈ (engineRun links prober completed).valid_links →
        u ∈ (engineRun links prober completed).invalid_links → False := by
      intro u h1 h2
      obtain ⟨r1, hr1, hu1, hv1⟩ := (engineRun_mem_valid links prober completed u).mp h1
      obtain ⟨r2, hr2, hu2, hv2⟩ := (engineRun_mem_invalid links prober completed u).mp h2
      have heq : r1 = r2 :=
        List.inj_on_of_nodup_map hndu hr1 hr2 (by rw [hu1, hu2])
      rw [heq, hv2] at hv1
      cases hv1
    refine ⟨?_, ?_, ?_⟩
    · intro u hu
      rcases hcover u hu with hc | hc
      · exact Or.inl ⟨hc, fun hmem2 => hexcl u hc hmem2⟩
      · exact Or.inr ⟨hc, fun hmem2 => hexcl u hmem2 hc⟩
    · rw [hvl]
      exact hndu.sublist ((List.filter_sublist completed).map (fun r => r.url))
    · rw [hil]
      exact hndu.sublist ((List.filter_sublist completed).map (fun r => r.url))

theorem claim_C6_witness :
    (engineRun ["http://a.com", "http://a.com"] proberOk
        (engineResults ["http://a.com", "http://a.com"] proberOk)).valid_links.length +
      (engineRun ["http://a.com", "http://a.com"] proberOk
        (engineResults ["http://a.com", "http://a.com"] proberOk)).invalid_links.length =
    (dispatchedLinks ["http://a.com", "http://a.com"]).length :=
  (claim_C6 ["http://a.com", "http://a.com"] proberOk
    (engineResults ["http://a.com", "http://a.com"] proberOk) (List.Perm.refl _)).1

/-- Claim C7 fails as stated: the progress line prints
`len(links)` — the count of all extracted URLs — as its total, not the
number of dispatched URLs: with one of two links filtered out by the
`"2025"` rule, the single progress tuple reports total `2` while only
`1` URL was dispatched. -/
theorem claim_C7_counterexample :
    (clean_bookmarks ["http://a.com", "http://b2025.com"] proberOk).progress =
      [⟨1, 2, "http://a.com"⟩] ∧
    (dispatchedLinks ["http://a.com", "http://b2025.com"]).length = 1 ∧
    (⟨1, 2, "http://a.com"⟩ : Progress).total ≠
      (dispatchedLinks ["http://a.com", "http://b2025.com"]).length := by
  refine ⟨by decide, by decide, by decide⟩

/-- Claim C7 (amended): every progress report is the tuple
`(completedCount, total, url)` whose `total` is `links.length`, the
count of all extracted URLs — including the ones excluded by the
`"2025"` pre-dispatch filter — not the dispatched count. -/
theorem claim_C7 (links : List String) (prober : String → Nat → ProbeOutcome)
    (completed : List LinkResult)
    (_hperm : completed.Perm (engineResults links prober)) (p : Progress)
    (hp : p ∈ (engineRun links prober completed).progress) :
    p.total = links.length :=
  collectLoop_progress_total links.length 1 completed p hp

theorem claim_C7_witness :
    (⟨1, 2, "http://a.com"⟩ : Progress).total =
      (["http://a.com", "http://b2025.com"] : List String).length :=
  claim_C7 ["http://a.com", "http://b2025.com"] proberOk
    (engineResults ["http://a.com", "http://b2025.com"] proberOk) (List.Perm.refl _)
    ⟨1, 2, "http://a.com"⟩ (by decide)

/-- Claim C9: a `KeyboardInterrupt` during result collection is always
caught: the engine returns normally (never an uncaught error), an
interrupt firing while any of the completions is collected yields the
`cancelled` outcome (the partial lists are abandoned, no error is
raised), and with no interrupt the run completes with the ordinary
report. -/
theorem claim_C9 (links : List String) (prober : String → Nat → ProbeOutcome)
    (completed : List LinkResult) (interrupt : Option Nat) :
    (∃ o, engineRunCancellable links prober completed interrupt = Except.ok o) ∧
    (∀ j, interrupt = some j → 1 ≤ j → j ≤ completed.length →
      engineRunCancellable links prober completed interrupt =
        Except.ok EngineOutcome.cancelled) ∧
    (interrupt = none →
      engineRunCancellable links prober completed interrupt =
        Except.ok (EngineOutcome.completed (engineRun links prober completed))) := by
  refine ⟨?_, ?_, ?_⟩
  · unfold engineRunCancellable
    rcases h : collectLoopCancel links.length interrupt 1 completed with e | rep
    · exact ⟨EngineOutcome.cancelled, rfl⟩
    · exact ⟨EngineOutcome.completed rep, rfl⟩
  · intro j hj h1 h2
    subst hj
    unfold engineRunCancellable
    rw [collectLoopCancel_interrupted links.length j 1 completed h1 (by omega)]
  · intro hnone
    subst hnone
    unfold engineRunCancellable
    rw [collectLoopCancel_no_interrupt]
    rfl

theorem claim_C9_witness :
    engineRunCancellable ["http://a.com"] proberOk
        (engineResults ["http://a.com"] proberOk) (some 1) =
      Except.ok EngineOutcome.cancelled :=
  (claim_C9 ["http://a.com"] proberOk (engineResults ["http://a.com"] proberOk)
    (some 1)).2.1 1 rfl (by decide) (by decide)

end CleanBookmarks
